import Mathlib

/-!
Verification of the poem-openapi fragment: the query-extraction wrapper
(`src/poem-openapi/src/param/query.rs`), the jiff `Timestamp` adapter
(`src/poem-openapi/src/types/external/jiff.rs`) and the ndarray `Array2`
adapter (`src/poem-openapi/src/types/external/ndarray.rs`).

The embedding is shallow: `serde_json::Value` becomes the inductive `Value`,
`ParseError` becomes `ParseErr`, fallible Rust functions return `Except`,
and the one reachable panic (`values.next().unwrap()` in `from_request`)
is modelled by an outer `Option`, `none` meaning "panics".
-/

/-- The raw JSON value model (serde_json::Value): null, bool, number,
string, ordered array, object.  Numbers are modelled as integers; none of
the verified properties depends on the numeric representation. -/
inductive Value where
  | null
  | bool (b : Bool)
  | num (n : Int)
  | str (s : String)
  | arr (items : List Value)
  | obj (fields : List (String × Value))

/-- The conversion-error type (poem-openapi ParseError).  `expectedType`
and `expectedInput` mirror `ParseError::expected_type` / `expected_input`;
`custom` mirrors `ParseError::custom`; `propagated` mirrors
`ParseError::propagate`, which wraps a nested element failure while
preserving it; `ioError` models a failed multipart payload read. -/
inductive ParseErr where
  | expectedType (v : Value)
  | expectedInput
  | custom (msg : String)
  | propagated (inner : ParseErr)
  | ioError (msg : String)

/-- `ParseError::into_message`.  The rendering lives in poem-openapi's
`types/error.rs`, outside the analyzed fragment; the texts below are an
abstraction (no verified property inspects them), only the structure
matters: `custom` keeps its message and `propagated` keeps the inner one. -/
def ParseErr.into_message : ParseErr → String
  | .expectedType _ => ("expected type")
  | .expectedInput => ("expected input")
  | .custom msg => msg
  | .propagated inner => inner.into_message
  | .ioError msg => msg

/-- The query multimap (poem's UrlQuery): an ordered list of
key/value pairs, possibly with repeated keys. -/
def UrlQuery : Type := List (String × String)

/-- `UrlQuery::get_all(name)`: the values of all pairs whose key equals
`name`, in original order. -/
def UrlQuery.get_all (q : UrlQuery) (name : String) : List String :=
  (q.filter (fun p => p.1 == name)).map (fun p => p.2)

/-- `UrlQuery::get_all_by(pred)`: the values of all pairs whose key
satisfies `pred`, in original order. -/
def UrlQuery.get_all_by (q : UrlQuery) (pred : String → Bool) : List String :=
  (q.filter (fun p => pred p.1)).map (fun p => p.2)

/-- `str::eq_ignore_ascii_case`: equality after ASCII lowercasing
(Lean's `Char.toLower` lowercases exactly the ASCII range). -/
def eqIgnoreAsciiCase (a b : String) : Bool :=
  a.toList.map Char.toLower == b.toList.map Char.toLower

/-- `ExtractParamOptions`: per-parameter extraction configuration.
`default_value` is the lazily-invoked producer (`Option<fn() -> T>`). -/
structure ExtractParamOptions (T : Type) where
  name : String
  ignore_case : Bool
  explode : Bool
  default_value : Option (Unit → T)

/-- `Query<T>`: the transparent carrier wrapping the extracted value. -/
structure Query (T : Type) where
  val : T

/-- `ParseParamError { name, reason }`: the named-parameter error produced
at the query-extraction boundary. -/
structure ParseParamError where
  name : String
  reason : String

/-- Rust's `str::split(',')` at the character level: the comma-separated
pieces of the string, keeping empty pieces (so the empty string yields one
empty piece, and adjacent commas yield empty pieces between them). -/
def splitOnComma : List Char → List (List Char)
  | [] => [[]]
  | c :: rest =>
    match splitOnComma rest with
    | [] => [[]]
    | piece :: pieces =>
      if c = ',' then [] :: piece :: pieces
      else (c :: piece) :: pieces

/-- Rust's `str::trim` at the character level: surrounding whitespace
removed from both ends (`Char.isWhitespace`; Rust trims the Unicode
white-space class, which agrees on the ASCII inputs at stake here). -/
def trimChars (cs : List Char) : List Char :=
  ((cs.dropWhile Char.isWhitespace).reverse.dropWhile Char.isWhitespace).reverse

/-- The non-explode decoding of a single occurrence:
`value.split(',').map(|v| v.trim())`. -/
def splitTrim (s : String) : List String :=
  (splitOnComma s.toList).map (fun cs => String.mk (trimChars cs))

/-- The shared tail of both `from_request` branches:
`parse_from_parameters(values).map(Self).map_err(|err| ParseParamError {
name, reason: err.into_message() }.into())`. -/
def wrapResult {T : Type} (name : String) (r : Except ParseErr T) :
    Except ParseParamError (Query T) :=
  (r.map Query.mk).mapError (fun err => ⟨name, err.into_message⟩)

/-- The occurrence selection in `from_request`: `get_all(name)` when
`ignore_case` is off, else `get_all_by(|n| name.eq_ignore_ascii_case(n))`. -/
def selectValues {T : Type} (q : UrlQuery) (opts : ExtractParamOptions T) :
    List String :=
  if !opts.ignore_case then q.get_all opts.name
  else q.get_all_by (fun n => eqIgnoreAsciiCase opts.name n)

/-- `Query::<T>::from_request`, parameterized by `T`'s
`parse_from_parameters` (the function `parse`).  The returned `none`
models a panic: with `explode = false` and no occurrence the source runs
`values.next().unwrap()` on an empty iterator.  The default-value check
(`values.peek().is_none()`) precedes both parse branches exactly as in the
source. -/
def Query.from_request {T : Type} (parse : List String → Except ParseErr T)
    (q : UrlQuery) (opts : ExtractParamOptions T) :
    Option (Except ParseParamError (Query T)) :=
  let values := selectValues q opts
  match opts.default_value with
  | some default_value =>
    if values.isEmpty then some (Except.ok ⟨default_value ()⟩)
    else
      if opts.explode then some (wrapResult opts.name (parse values))
      else
        match values with
        | [] => none
        | v :: _ => some (wrapResult opts.name (parse (splitTrim v)))
  | none =>
    if opts.explode then some (wrapResult opts.name (parse values))
    else
      match values with
      | [] => none
      | v :: _ => some (wrapResult opts.name (parse (splitTrim v)))

/-- Modelled from the spec: the Parameter Conversion Protocol's
multi-occurrence parse for scalar types, whose default implementation is
not part of the analyzed fragment.  Per §4.3 scalar types require exactly
one value and fail otherwise, and §4.5/§9 route the empty sequence through
the protocol's expected-input semantics. -/
def scalarParseFromParameters {T : Type} (pp : String → Except ParseErr T) :
    List String → Except ParseErr T
  | [v] => pp v
  | _ => Except.error ParseErr.expectedInput

/-- Modelled from the spec: the multi-occurrence parse for
collection-shaped types (not in the analyzed fragment).  Per §4.3/§4.5
and the Explode glossary entry, each occurrence of the sequence maps to
exactly one logical element, in order, and any element failure fails the
whole parse. -/
def listParseFromParameters {T : Type} (pp : String → Except ParseErr T) :
    List String → Except ParseErr (List T)
  | [] => Except.ok []
  | v :: vs =>
    match pp v with
    | Except.error e => Except.error e
    | Except.ok t => (listParseFromParameters pp vs).map (fun ts => t :: ts)

/-- Modelled from the spec: well-formedness of a timestamp string in the
canonical "date-time" format (§6's `string` with format `date-time`,
§8's "well-formed timestamp-like string"): `YYYY-MM-DDTHH:MM:SSZ`. -/
def isWellFormedTimestamp (s : String) : Bool :=
  match s.toList with
  | [y1, y2, y3, y4, '-', m1, m2, '-', d1, d2, 'T',
     h1, h2, ':', n1, n2, ':', s1, s2, 'Z'] =>
    [y1, y2, y3, y4, m1, m2, d1, d2, h1, h2, n1, n2, s1, s2].all Char.isDigit
  | _ => false

/-- Modelled from the spec: the jiff `Timestamp` value.  The jiff crate is
external to the analyzed sources (only the adapter impls are in-tree); per
§8's scalar format round-trip a well-formed timestamp string parses to a
value whose serialization reproduces the identical string, so the value is
modelled as its canonical textual form. -/
structure Timestamp where
  repr : String

/-- Modelled from the spec: jiff's `Timestamp: FromStr` (`value.parse()`),
external to the analyzed sources.  A well-formed string parses to the
value carrying it; anything else fails, converted into a `custom` parse
error by the `?` in the adapter. -/
def Timestamp.fromStr (s : String) : Except ParseErr Timestamp :=
  if isWellFormedTimestamp s then Except.ok ⟨s⟩
  else Except.error (ParseErr.custom ("invalid timestamp"))

/-- Modelled from the spec: jiff's `Timestamp: Display` (`to_string`),
the canonical textual form of the value. -/
def Timestamp.render (t : Timestamp) : String :=
  t.repr

/-- `<Timestamp as ParseFromParameter>::parse_from_parameter`:
`Ok(value.parse()?)`. -/
def Timestamp.parse_from_parameter (value : String) : Except ParseErr Timestamp :=
  Timestamp.fromStr value

/-- `<Timestamp as ParseFromJSON>::parse_from_json`: `None` defaults to
null, a string value is parsed with the same `value.parse()`, any other
shape fails with `expected_type`. -/
def Timestamp.parse_from_json (value : Option Value) : Except ParseErr Timestamp :=
  match value.getD Value.null with
  | Value.str s => Timestamp.fromStr s
  | v => Except.error (ParseErr.expectedType v)

/-- `<Timestamp as ParseFromMultipartField>::parse_from_multipart`.  The
multipart field is modelled by the outcome of its `text()` payload read
(`Except String String`: the I/O error message or the textual payload);
`None` fails with `expected_input`, a failed read is propagated by `?`,
and a successful read is parsed with the same `value.parse()`. -/
def Timestamp.parse_from_multipart (field : Option (Except String String)) :
    Except ParseErr Timestamp :=
  match field with
  | none => Except.error ParseErr.expectedInput
  | some r =>
    match r with
    | Except.error e => Except.error (ParseErr.ioError e)
    | Except.ok s => Timestamp.fromStr s

/-- `<Timestamp as ToJSON>::to_json`: `Some(Value::String(self.to_string()))`. -/
def Timestamp.to_json (t : Timestamp) : Option Value :=
  some (Value.str t.render)

/-- ndarray's `Array2<T>`: a shape `(nrows, ncols)` plus the row-major
flat data; `hlen` is ndarray's internal invariant that the data length
matches the shape, established at every construction site. -/
structure Array2 (T : Type) where
  nrows : Nat
  ncols : Nat
  data : List T
  hlen : data.length = nrows * ncols

/-- `Array2::from_shape_vec((r, c), v)`: fails when the data length does
not match the shape; the adapter maps that failure to a `custom` error
with the shape error's message (rendered abstractly here). -/
def Array2.from_shape_vec {T : Type} (r c : Nat) (v : List T) :
    Except ParseErr (Array2 T) :=
  if h : v.length = r * c then Except.ok ⟨r, c, v, h⟩
  else Except.error (ParseErr.custom ("shape does not match data length"))

/-- The column list of a row value.  Only reached on `Value.arr` rows (the
source marks the other arm `unreachable!()` after shape validation). -/
def rowCols : Value → List Value
  | Value.arr cols => cols
  | _ => []

/-- The shape-validation loop of `Array2::parse_from_json`: every row must
be an array of exactly `ncols` columns. -/
def checkRows (ncols : Nat) (rows : List Value) : Bool :=
  rows.all (fun r =>
    match r with
    | Value.arr cols => cols.length == ncols
    | _ => false)

/-- The element traversal order of `Array2::parse_from_json`: all columns
of all rows, row-major. -/
def flattenRows (rows : List Value) : List Value :=
  (rows.map rowCols).flatten

/-- The element-parsing loop of `Array2::parse_from_json`: each element is
parsed with `T::parse_from_json(Some(col)).map_err(ParseError::propagate)`,
and the first failure short-circuits the rest. -/
def mapParse {T : Type} (p : Option Value → Except ParseErr T) :
    List Value → Except ParseErr (List T)
  | [] => Except.ok []
  | v :: vs =>
    match p (some v) with
    | Except.error e => Except.error (ParseErr.propagated e)
    | Except.ok t => (mapParse p vs).map (fun ts => t :: ts)

/-- `<Array2<T> as ParseFromJSON>::parse_from_json`, parameterized by
`T::parse_from_json` (the function `p`).  `None` defaults to null; a
non-array fails with `expected_type`; an empty outer array yields the 0×0
array; a non-array first row fails with the "Expected array of arrays"
custom error; a row of the wrong length (checked before any element is
parsed) fails with the "All rows must have same length" custom error;
then the elements are parsed row-major and assembled by `from_shape_vec`. -/
def Array2.parse_from_json {T : Type} (p : Option Value → Except ParseErr T)
    (value : Option Value) : Except ParseErr (Array2 T) :=
  match value.getD Value.null with
  | Value.arr rows =>
    match rows with
    | [] => Except.ok ⟨0, 0, [], rfl⟩
    | r0 :: rest =>
      match r0 with
      | Value.arr cols0 =>
        if checkRows cols0.length (Value.arr cols0 :: rest) then
          match mapParse p (flattenRows (Value.arr cols0 :: rest)) with
          | Except.error e => Except.error e
          | Except.ok data =>
            Array2.from_shape_vec (Value.arr cols0 :: rest).length cols0.length data
        else Except.error (ParseErr.custom ("All rows must have same length"))
      | _ => Except.error (ParseErr.custom ("Expected array of arrays"))
  | v => Except.error (ParseErr.expectedType v)

/-- `<Array2<T> as ToJSON>::to_json`, parameterized by `T::to_json` (the
function `tj`): for each `row_idx` below `shape[0]` and `col_idx` below
`shape[1]`, the element's serialization is pushed onto the row only when
it is `Some` (the `filterMap`/`bind`); `self[[i, j]]` is the row-major
access `data[i * ncols + j]`, total thanks to `hlen`. -/
def Array2.to_json {T : Type} (tj : T → Option Value) (a : Array2 T) :
    Option Value :=
  some (Value.arr ((List.range a.nrows).map (fun i =>
    Value.arr ((List.range a.ncols).filterMap (fun j =>
      (a.data[i * a.ncols + j]?).bind tj)))))

/-- Spec-side definition (§4.5 step 1, exact matching): the occurrences
whose keys equal the parameter name, kept in original order. -/
def specSelectExact (q : UrlQuery) (name : String) : List String :=
  match q with
  | [] => []
  | (k, v) :: rest =>
    if k = name then v :: specSelectExact rest name
    else specSelectExact rest name

/-- Spec-side definition (§4.5 step 1, case-insensitive matching): the
occurrences whose keys match the parameter name up to ASCII case, kept in
original order. -/
def specSelectCI (q : UrlQuery) (name : String) : List String :=
  match q with
  | [] => []
  | (k, v) :: rest =>
    if eqIgnoreAsciiCase name k then v :: specSelectCI rest name
    else specSelectCI rest name

/-- A concrete integer element parser used to instantiate the generic
`Array2` adapter in witnesses: a number parses to its value, anything else
fails with `expected_type` (null for an absent value, as the scalar
adapters do after `unwrap_or_default`). -/
def pNum : Option Value → Except ParseErr Int
  | some (Value.num n) => Except.ok n
  | some v => Except.error (ParseErr.expectedType v)
  | none => Except.error (ParseErr.expectedType Value.null)

/-- The serializer matching `pNum`: a number serializes to itself. -/
def tjNum : Int → Option Value :=
  fun n => some (Value.num n)

theorem filterMap_of_forall₂ {T : Type} {tj : T → Option Value} :
    ∀ {es : List Value} {ts : List T},
      List.Forall₂ (fun e t => tj t = some e) es ts → ts.filterMap tj = es
  | _, _, List.Forall₂.nil => rfl
  | _, _, List.Forall₂.cons h hs => by
    simp [List.filterMap_cons, h, filterMap_of_forall₂ hs]

theorem forall₂_append_split {α β : Type} {R : α → β → Prop} :
    ∀ {xs ys : List α} {zs : List β}, List.Forall₂ R (xs ++ ys) zs →
      ∃ z₁ z₂, zs = z₁ ++ z₂ ∧ List.Forall₂ R xs z₁ ∧ List.Forall₂ R ys z₂ := by
  intro xs
  induction xs with
  | nil => intro ys zs h; exact ⟨[], zs, rfl, List.Forall₂.nil, h⟩
  | cons x xs ih =>
    intro ys zs h
    cases h with
    | cons hx hrest =>
      obtain ⟨z₁, z₂, rfl, h₁, h₂⟩ := ih hrest
      exact ⟨_ :: z₁, z₂, rfl, List.Forall₂.cons hx h₁, h₂⟩

theorem mapParse_ok_of_roundtrip {T : Type}
    {p : Option Value → Except ParseErr T} {tj : T → Option Value} :
    ∀ {vs : List Value},
      (∀ e ∈ vs, ∃ t, p (some e) = Except.ok t ∧ tj t = some e) →
      ∃ ts, mapParse p vs = Except.ok ts ∧
        List.Forall₂ (fun e t => tj t = some e) vs ts := by
  intro vs
  induction vs with
  | nil => intro _; exact ⟨[], rfl, List.Forall₂.nil⟩
  | cons v vs ih =>
    intro h
    obtain ⟨t, hpt, htj⟩ := h v (List.mem_cons_self v vs)
    obtain ⟨ts, hts, hf⟩ := ih (fun e he => h e (List.mem_cons_of_mem v he))
    refine ⟨t :: ts, ?_, List.Forall₂.cons htj hf⟩
    simp [mapParse, hpt, hts, Except.map]

theorem flatten_length_of_uniform {ncols : Nat} :
    ∀ {rcols : List (List Value)}, (∀ r ∈ rcols, r.length = ncols) →
      rcols.flatten.length = rcols.length * ncols := by
  intro rcols
  induction rcols with
  | nil => intro _; simp
  | cons r rs ih =>
    intro h
    have hr := h r (List.mem_cons_self r rs)
    have hrs := ih (fun x hx => h x (List.mem_cons_of_mem r hx))
    simp only [List.flatten_cons, List.length_append, List.length_cons,
      Nat.succ_mul]
    omega

theorem filterMap_range_slice {T : Type} (tj : T → Option Value) :
    ∀ (n : Nat) (off : Nat) (l : List T),
      (List.range n).filterMap (fun j => (l[off + j]?).bind tj) =
        ((l.drop off).take n).filterMap tj := by
  intro n
  induction n with
  | zero => intro off l; simp
  | succ n ih =>
    intro off l
    rw [List.range_succ, List.filterMap_append, List.take_succ,
      List.filterMap_append, ih off l]
    have hdr : (l.drop off)[n]? = l[off + n]? := List.getElem?_drop l off n
    cases hv : l[off + n]? with
    | none => simp [List.filterMap_cons, hdr, hv]
    | some t =>
      cases htj : tj t with
      | none => simp [List.filterMap_cons, hdr, hv, htj]
      | some e => simp [List.filterMap_cons, hdr, hv, htj]

theorem reconstruct_rows {T : Type} (tj : T → Option Value) (ncols : Nat) :
    ∀ (rcols : List (List Value)) (data : List T),
      (∀ r ∈ rcols, r.length = ncols) →
      List.Forall₂ (fun e t => tj t = some e) rcols.flatten data →
      (List.range rcols.length).map (fun i =>
        (List.range ncols).filterMap (fun j =>
          (data[i * ncols + j]?).bind tj)) = rcols := by
  intro rcols
  induction rcols with
  | nil =>
    intro data _ hf
    simp
  | cons r rs ih =>
    intro data hlen hf
    rw [List.flatten_cons] at hf
    obtain ⟨d₁, d₂, rfl, h₁, h₂⟩ := forall₂_append_split hf
    have hd₁ : d₁.length = ncols := by
      rw [← h₁.length_eq]; exact hlen r (List.mem_cons_self r rs)
    simp only [List.length_cons, List.range_succ_eq_map, List.map_cons,
      List.map_map]
    have hhead : (List.range ncols).filterMap (fun j =>
        ((d₁ ++ d₂)[0 * ncols + j]?).bind tj) = r := by
      have := filterMap_range_slice tj ncols 0 (d₁ ++ d₂)
      simp only [Nat.zero_mul, Nat.zero_add] at this ⊢
      rw [this, List.drop_zero, ← hd₁, List.take_left, filterMap_of_forall₂ h₁]
    have htail : ∀ i ∈ List.range rs.length,
        ((fun i => (List.range ncols).filterMap (fun j =>
          ((d₁ ++ d₂)[i * ncols + j]?).bind tj)) ∘ Nat.succ) i =
        (List.range ncols).filterMap (fun j => (d₂[i * ncols + j]?).bind tj) := by
      intro i _
      simp only [Function.comp]
      apply List.filterMap_congr
      intro j _
      have hidx : Nat.succ i * ncols + j = d₁.length + (i * ncols + j) := by
        rw [hd₁, Nat.succ_mul]; omega
      rw [hidx, List.getElem?_append_right (Nat.le_add_right _ _),
        Nat.add_sub_cancel_left]
    rw [hhead, List.map_congr_left htail,
      ih d₂ (fun x hx => hlen x (List.mem_cons_of_mem r hx)) h₂]

theorem get_all_by_eq_specCI (q : UrlQuery) (name : String) :
    q.get_all_by (fun n => eqIgnoreAsciiCase name n) = specSelectCI q name := by
  induction q with
  | nil => rfl
  | cons p rest ih =>
    obtain ⟨k, v⟩ := p
    by_cases h : eqIgnoreAsciiCase name k = true
    · simp [UrlQuery.get_all_by, specSelectCI, List.filter_cons, h,
        ← ih, UrlQuery.get_all_by]
    · simp only [Bool.not_eq_true] at h
      simp [UrlQuery.get_all_by, specSelectCI, List.filter_cons, h,
        ← ih, UrlQuery.get_all_by]

theorem get_all_eq_specExact (q : UrlQuery) (name : String) :
    q.get_all name = specSelectExact q name := by
  induction q with
  | nil => rfl
  | cons p rest ih =>
    obtain ⟨k, v⟩ := p
    by_cases h : k = name
    · simp [UrlQuery.get_all, specSelectExact, List.filter_cons, h,
        ← ih, UrlQuery.get_all]
    · simp [UrlQuery.get_all, specSelectExact, List.filter_cons, h,
        ← ih, UrlQuery.get_all]

theorem checkRows_eq_true_iff (ncols : Nat) (rows : List Value) :
    checkRows ncols rows = true ↔
      ∀ r ∈ rows, ∃ cols, r = Value.arr cols ∧ cols.length = ncols := by
  rw [checkRows, List.all_eq_true]
  constructor
  · intro h r hr
    have := h r hr
    cases r with
    | arr cols => exact ⟨cols, rfl, by simpa using this⟩
    | null => simp at this
    | bool b => simp at this
    | num n => simp at this
    | str s => simp at this
    | obj fields => simp at this
  · intro h r hr
    obtain ⟨cols, rfl, hl⟩ := h r hr
    simpa using hl

theorem mapParse_append_error {T : Type}
    {p : Option Value → Except ParseErr T} {e : Value} {err : ParseErr}
    (post : List Value) (he : p (some e) = Except.error err) :
    ∀ (pre : List Value), (∀ x ∈ pre, ∃ t, p (some x) = Except.ok t) →
      mapParse p (pre ++ e :: post) = Except.error (ParseErr.propagated err) := by
  intro pre
  induction pre with
  | nil => intro _; simp [mapParse, he]
  | cons x xs ih =>
    intro h
    obtain ⟨t, ht⟩ := h x (List.mem_cons_self x xs)
    have := ih (fun y hy => h y (List.mem_cons_of_mem x hy))
    simp [mapParse, ht, this, Except.map]

/-- Claim C6: a well-formed timestamp string parses via
`Timestamp::parse_from_parameter` and `Timestamp::to_json` serializes the
resulting value back to exactly the same string. -/
theorem claim_C6_timestamp_roundtrip (s : String)
    (h : isWellFormedTimestamp s = true) :
    ∃ t, Timestamp.parse_from_parameter s = Except.ok t ∧
      Timestamp.to_json t = some (Value.str s) := by
  refine ⟨⟨s⟩, ?_, rfl⟩
  simp [Timestamp.parse_from_parameter, Timestamp.fromStr, h]

/-- Witness for C6 at the concrete timestamp of the source's own tests. -/
theorem claim_C6_witness :
    ∃ t, Timestamp.parse_from_parameter ("2024-03-10T10:00:00Z") = Except.ok t ∧
      Timestamp.to_json t = some (Value.str ("2024-03-10T10:00:00Z")) :=
  claim_C6_timestamp_roundtrip ("2024-03-10T10:00:00Z") (by decide)

/-- Claim C9: `Timestamp::parse_from_multipart` fails with `expected_input`
on an absent field, delegates a successful payload read to the same textual
parse as `parse_from_parameter`, and propagates a failed payload read. -/
theorem claim_C9_multipart_delegation (s e : String) :
    Timestamp.parse_from_multipart none = Except.error ParseErr.expectedInput ∧
    Timestamp.parse_from_multipart (some (Except.ok s)) =
      Timestamp.parse_from_parameter s ∧
    Timestamp.parse_from_multipart (some (Except.error e)) =
      Except.error (ParseErr.ioError e) :=
  ⟨rfl, rfl, rfl⟩

/-- Witness for C9 at a concrete payload and a concrete read failure. -/
theorem claim_C9_witness :
    Timestamp.parse_from_multipart none = Except.error ParseErr.expectedInput ∧
    Timestamp.parse_from_multipart (some (Except.ok ("2024-03-10T10:00:00Z"))) =
      Timestamp.parse_from_parameter ("2024-03-10T10:00:00Z") ∧
    Timestamp.parse_from_multipart (some (Except.error ("read failed"))) =
      Except.error (ParseErr.ioError ("read failed")) :=
  claim_C9_multipart_delegation ("2024-03-10T10:00:00Z") ("read failed")

/-- Claim C10: on string inputs, `Timestamp::parse_from_json` and
`Timestamp::parse_from_parameter` run the identical textual parse, so the
two conversion protocols agree (same success value or same failure). -/
theorem claim_C10_param_json_agree (s : String) :
    Timestamp.parse_from_json (some (Value.str s)) =
      Timestamp.parse_from_parameter s :=
  rfl

/-- Witness for C10 at the concrete timestamp of the source's own tests. -/
theorem claim_C10_witness :
    Timestamp.parse_from_json (some (Value.str ("2024-03-10T10:00:00Z"))) =
      Timestamp.parse_from_parameter ("2024-03-10T10:00:00Z") :=
  claim_C10_param_json_agree ("2024-03-10T10:00:00Z")

/-- Claim C1 (failing evaluation): with zero matching occurrences and no
default, `Query::from_request` with `explode = false` runs
`values.next().unwrap()` on an empty iterator and panics (the `none`
result), so extraction is not total; with `explode = true` it feeds the
empty sequence to `parse_from_parameters` and fails with the
named-parameter error. -/
theorem claim_C1_missing_param_panics :
    Query.from_request (scalarParseFromParameters Timestamp.parse_from_parameter)
      ([] : UrlQuery) ⟨("x"), false, false, none⟩ = none ∧
    Query.from_request (scalarParseFromParameters Timestamp.parse_from_parameter)
      ([] : UrlQuery) ⟨("x"), false, true, none⟩ =
      some (Except.error ⟨("x"), ParseErr.expectedInput.into_message⟩) :=
  ⟨rfl, rfl⟩

/-- Claim C7: occurrence selection in `Query::from_request` keeps exactly
the case-insensitively matching occurrences when `ignore_case` is set and
exactly the exact-key matches otherwise, in original order (the spec-side
recursive selections), and a parameter named `Foo` is found under key
`foo` when `ignore_case` is set. -/
theorem claim_C7_occurrence_selection {T : Type} (q : UrlQuery)
    (opts : ExtractParamOptions T) :
    (opts.ignore_case = true → selectValues q opts = specSelectCI q opts.name) ∧
    (opts.ignore_case = false → selectValues q opts = specSelectExact q opts.name) ∧
    selectValues ([(("foo"), ("v"))] : UrlQuery)
      (⟨("Foo"), true, true, none⟩ : ExtractParamOptions T) = [("v")] := by
  refine ⟨?_, ?_, rfl⟩
  · intro h
    simp only [selectValues, h, Bool.not_true, Bool.false_eq_true, if_false]
    exact get_all_by_eq_specCI q opts.name
  · intro h
    simp only [selectValues, h, Bool.not_false, if_true]
    exact get_all_eq_specExact q opts.name

/-- Witness for C7 on a concrete multimap with mixed-case keys, in both
lookup modes. -/
theorem claim_C7_witness :
    selectValues ([(("foo"), ("1")), (("bar"), ("2")), (("FOO"), ("3"))] : UrlQuery)
      (⟨("Foo"), true, true, none⟩ : ExtractParamOptions Timestamp) =
      specSelectCI ([(("foo"), ("1")), (("bar"), ("2")), (("FOO"), ("3"))]) ("Foo") ∧
    selectValues ([(("foo"), ("1")), (("Foo"), ("2"))] : UrlQuery)
      (⟨("Foo"), false, true, none⟩ : ExtractParamOptions Timestamp) =
      specSelectExact ([(("foo"), ("1")), (("Foo"), ("2"))]) ("Foo") :=
  ⟨(claim_C7_occurrence_selection
      ([(("foo"), ("1")), (("bar"), ("2")), (("FOO"), ("3"))] : UrlQuery)
      (⟨("Foo"), true, true, none⟩ : ExtractParamOptions Timestamp)).1 rfl,
   (claim_C7_occurrence_selection
      ([(("foo"), ("1")), (("Foo"), ("2"))] : UrlQuery)
      (⟨("Foo"), false, true, none⟩ : ExtractParamOptions Timestamp)).2.1 rfl⟩

/-- Claim C5: with zero matching occurrences and a configured default
producer, extraction succeeds with exactly the producer's output wrapped
in `Query`, and the parse function is never consulted (any two parse
functions give this same result); with at least one occurrence the
producer is never consulted (the result equals extraction with no default
configured). -/
theorem claim_C5_default_fallback {T : Type}
    (p p' : List String → Except ParseErr T) (q : UrlQuery)
    (opts : ExtractParamOptions T) (d : Unit → T) :
    (selectValues q opts = [] →
      Query.from_request p q { opts with default_value := some d } =
        some (Except.ok ⟨d ()⟩) ∧
      Query.from_request p q { opts with default_value := some d } =
        Query.from_request p' q { opts with default_value := some d }) ∧
    (selectValues q opts ≠ [] →
      Query.from_request p q { opts with default_value := some d } =
        Query.from_request p q { opts with default_value := none }) := by
  obtain ⟨nm, ic, ex, dv0⟩ := opts
  have hsel : ∀ (dv : Option (Unit → T)),
      selectValues q ⟨nm, ic, ex, dv⟩ = selectValues q ⟨nm, ic, ex, dv0⟩ :=
    fun _ => rfl
  constructor
  · intro h
    have h' : selectValues q ⟨nm, ic, ex, some d⟩ = [] := (hsel (some d)).trans h
    constructor <;> simp [Query.from_request, h']
  · intro h
    cases hv : selectValues q ⟨nm, ic, ex, dv0⟩ with
    | nil => exact absurd hv h
    | cons v vs =>
      have hv1 : selectValues q ⟨nm, ic, ex, some d⟩ = v :: vs :=
        (hsel (some d)).trans hv
      have hv2 : selectValues q ⟨nm, ic, ex, none⟩ = v :: vs :=
        (hsel none).trans hv
      cases ex <;> simp [Query.from_request, hv1, hv2]

/-- Witness for C5: a missing parameter falls back to the default
producer, and a present parameter gives the same result as having no
default at all. -/
theorem claim_C5_witness :
    Query.from_request (scalarParseFromParameters Timestamp.parse_from_parameter)
      ([] : UrlQuery)
      ⟨("a"), false, true, some (fun _ => (⟨("1999-01-01T00:00:00Z")⟩ : Timestamp))⟩ =
      some (Except.ok ⟨⟨("1999-01-01T00:00:00Z")⟩⟩) ∧
    Query.from_request (scalarParseFromParameters Timestamp.parse_from_parameter)
      ([(("a"), ("2024-03-10T10:00:00Z"))] : UrlQuery)
      ⟨("a"), false, true, some (fun _ => (⟨("1999-01-01T00:00:00Z")⟩ : Timestamp))⟩ =
      Query.from_request (scalarParseFromParameters Timestamp.parse_from_parameter)
        ([(("a"), ("2024-03-10T10:00:00Z"))] : UrlQuery)
        ⟨("a"), false, true, none⟩ :=
  ⟨((claim_C5_default_fallback
      (scalarParseFromParameters Timestamp.parse_from_parameter)
      (scalarParseFromParameters Timestamp.parse_from_parameter)
      ([] : UrlQuery) ⟨("a"), false, true, none⟩
      (fun _ => (⟨("1999-01-01T00:00:00Z")⟩ : Timestamp))).1 rfl).1,
   (claim_C5_default_fallback
      (scalarParseFromParameters Timestamp.parse_from_parameter)
      (scalarParseFromParameters Timestamp.parse_from_parameter)
      ([(("a"), ("2024-03-10T10:00:00Z"))] : UrlQuery) ⟨("a"), false, true, none⟩
      (fun _ => (⟨("1999-01-01T00:00:00Z")⟩ : Timestamp))).2 (by decide)⟩

/-- Claim C2: with at least one matching occurrence, `explode = true`
passes the full ordered occurrence sequence to `parse_from_parameters`,
while `explode = false` passes the comma-split, whitespace-trimmed pieces
of the first occurrence only, ignoring all later occurrences; concretely,
occurrences `["1,2", "3,4"]` yield exactly the two logical elements
`"1,2"` and `"3,4"` when exploded, and the two elements `"1"`, `"2"`
(second occurrence ignored) otherwise. -/
theorem claim_C2_explode_semantics {T : Type}
    (p : List String → Except ParseErr T) (q : UrlQuery)
    (opts : ExtractParamOptions T) (v : String) (vs : List String)
    (hsel : selectValues q opts = v :: vs) :
    (opts.explode = true →
      Query.from_request p q opts = some (wrapResult opts.name (p (v :: vs)))) ∧
    (opts.explode = false →
      Query.from_request p q opts = some (wrapResult opts.name (p (splitTrim v)))) ∧
    splitTrim ("1,2") = [("1"), ("2")] ∧
    Query.from_request (listParseFromParameters Except.ok)
      ([(("a"), ("1,2")), (("a"), ("3,4"))] : UrlQuery)
      ⟨("a"), false, true, none⟩ = some (Except.ok ⟨[("1,2"), ("3,4")]⟩) ∧
    Query.from_request (listParseFromParameters Except.ok)
      ([(("a"), ("1,2")), (("a"), ("3,4"))] : UrlQuery)
      ⟨("a"), false, false, none⟩ = some (Except.ok ⟨[("1"), ("2")]⟩) := by
  refine ⟨?_, ?_, rfl, rfl, rfl⟩ <;> intro he <;>
    cases hdv : opts.default_value <;>
      simp [Query.from_request, hsel, he, hdv]

/-- Witness for C2 at the spec's own example occurrences. -/
theorem claim_C2_witness :
    Query.from_request (listParseFromParameters Except.ok)
      ([(("a"), ("1,2")), (("a"), ("3,4"))] : UrlQuery)
      ⟨("a"), false, true, none⟩ =
      some (wrapResult ("a")
        (listParseFromParameters Except.ok [("1,2"), ("3,4")])) :=
  (claim_C2_explode_semantics (listParseFromParameters Except.ok)
    ([(("a"), ("1,2")), (("a"), ("3,4"))] : UrlQuery)
    ⟨("a"), false, true, none⟩ ("1,2") [("3,4")] rfl).1 rfl

/-- Claim C8: `Array2::to_json` is total, returning `Some` of exactly
`nrows` rows; row `i` consists, in column order, of the serializations of
exactly those elements of the row-major slice
`data[i*ncols .. i*ncols + ncols)` whose own `to_json` is `Some`, the
others being omitted outright, so an output row may come out shorter than
`ncols`. -/
theorem claim_C8_to_json_rows {T : Type} (tj : T → Option Value) (a : Array2 T) :
    Array2.to_json tj a = some (Value.arr ((List.range a.nrows).map (fun i =>
      Value.arr (((a.data.drop (i * a.ncols)).take a.ncols).filterMap tj)))) := by
  have h : ∀ i ∈ List.range a.nrows,
      Value.arr ((List.range a.ncols).filterMap (fun j =>
        (a.data[i * a.ncols + j]?).bind tj)) =
      Value.arr (((a.data.drop (i * a.ncols)).take a.ncols).filterMap tj) := by
    intro i _
    rw [filterMap_range_slice]
  simp only [Array2.to_json]
  rw [List.map_congr_left h]

/-- Claim C4: `Array2::parse_from_json` validates the structure before any
element parse: a non-array first row, or any row deviating from the first
row's length, yields the corresponding custom error for every element
parser (so the result cannot depend on any element parse); once the
structure is accepted, the first element failure is returned wrapped in
`propagated`, under hypotheses constraining the parser only on the
elements up to and including the failing one, so the elements after it
never influence the result. -/
theorem claim_C4_structure_before_elements {T : Type}
    (p : Option Value → Except ParseErr T) :
    (∀ (r0 : Value) (rest : List Value), (∀ cols, r0 ≠ Value.arr cols) →
      Array2.parse_from_json p (some (Value.arr (r0 :: rest))) =
        Except.error (ParseErr.custom ("Expected array of arrays"))) ∧
    (∀ (cols0 : List Value) (rest : List Value),
      (∃ r ∈ Value.arr cols0 :: rest,
        ¬ ∃ cols, r = Value.arr cols ∧ cols.length = cols0.length) →
      Array2.parse_from_json p (some (Value.arr (Value.arr cols0 :: rest))) =
        Except.error (ParseErr.custom ("All rows must have same length"))) ∧
    (∀ (cols0 : List Value) (rest : List Value) (pre : List Value) (e : Value)
        (post : List Value) (err : ParseErr),
      checkRows cols0.length (Value.arr cols0 :: rest) = true →
      flattenRows (Value.arr cols0 :: rest) = pre ++ e :: post →
      (∀ x ∈ pre, ∃ t, p (some x) = Except.ok t) →
      p (some e) = Except.error err →
      Array2.parse_from_json p (some (Value.arr (Value.arr cols0 :: rest))) =
        Except.error (ParseErr.propagated err)) := by
  refine ⟨?_, ?_, ?_⟩
  · intro r0 rest h
    cases r0 with
    | arr cols => exact absurd rfl (h cols)
    | null => rfl
    | bool b => rfl
    | num n => rfl
    | str s => rfl
    | obj fields => rfl
  · intro cols0 rest h
    cases hc : checkRows cols0.length (Value.arr cols0 :: rest) with
    | false => simp [Array2.parse_from_json, hc]
    | true =>
      exfalso
      obtain ⟨r, hr, hnr⟩ := h
      exact hnr ((checkRows_eq_true_iff _ _).1 hc r hr)
  · intro cols0 rest pre e post err hcheck hflat hpre he
    have hm := mapParse_append_error post he pre hpre
    rw [← hflat] at hm
    simp [Array2.parse_from_json, hcheck, hm]

/-- Witness for C4: the spec's ragged example `[[1,2],[3]]` fails with the
row-length error before any element is parsed; a rectangular array with a
bad element fails with the propagated element error; a non-array first row
fails with the shape error. -/
theorem claim_C4_witness :
    Array2.parse_from_json pNum (some (Value.arr
        [Value.arr [Value.num 1, Value.num 2], Value.arr [Value.num 3]])) =
      Except.error (ParseErr.custom ("All rows must have same length")) ∧
    Array2.parse_from_json pNum (some (Value.arr
        [Value.arr [Value.num 1, Value.str ("x")],
         Value.arr [Value.num 2, Value.num 3]])) =
      Except.error (ParseErr.propagated (ParseErr.expectedType (Value.str ("x")))) ∧
    Array2.parse_from_json pNum (some (Value.arr [Value.num 7])) =
      Except.error (ParseErr.custom ("Expected array of arrays")) := by
  refine ⟨?_, ?_, ?_⟩
  · exact (claim_C4_structure_before_elements pNum).2.1
      [Value.num 1, Value.num 2] [Value.arr [Value.num 3]]
      ⟨Value.arr [Value.num 3], by simp,
        by rintro ⟨cols, hc, hl⟩; cases hc; simp at hl⟩
  · exact (claim_C4_structure_before_elements pNum).2.2
      [Value.num 1, Value.str ("x")] [Value.arr [Value.num 2, Value.num 3]]
      [Value.num 1] (Value.str ("x")) [Value.num 2, Value.num 3]
      (ParseErr.expectedType (Value.str ("x"))) rfl rfl
      (by intro x hx; simp at hx; subst hx; exact ⟨1, rfl⟩) rfl
  · exact (claim_C4_structure_before_elements pNum).1 (Value.num 7) []
      (fun cols h => Value.noConfusion h)

/-- Claim C3: for a rectangular array-of-arrays JSON value whose elements
all round-trip through the element type's own conversions,
`Array2::parse_from_json` succeeds and `Array2::to_json` maps the parsed
array back to exactly the original value. -/
theorem claim_C3_array2_roundtrip {T : Type}
    (p : Option Value → Except ParseErr T) (tj : T → Option Value)
    (rows : List Value) (ncols : Nat)
    (hshape : ∀ r ∈ rows, ∃ cols, r = Value.arr cols ∧ cols.length = ncols)
    (hrt : ∀ e ∈ flattenRows rows,
      ∃ t, p (some e) = Except.ok t ∧ tj t = some e) :
    ∃ a, Array2.parse_from_json p (some (Value.arr rows)) = Except.ok a ∧
      Array2.to_json tj a = some (Value.arr rows) := by
  cases rows with
  | nil => exact ⟨⟨0, 0, [], rfl⟩, rfl, rfl⟩
  | cons r0 rest =>
    obtain ⟨cols0, rfl, hc0⟩ := hshape r0 (List.mem_cons_self r0 rest)
    have hshape' : ∀ r ∈ Value.arr cols0 :: rest,
        ∃ cols, r = Value.arr cols ∧ cols.length = cols0.length := by
      intro r hr
      obtain ⟨cols, hrc, hl⟩ := hshape r hr
      exact ⟨cols, hrc, by rw [hl, hc0]⟩
    have hcheck : checkRows cols0.length (Value.arr cols0 :: rest) = true :=
      (checkRows_eq_true_iff _ _).2 hshape'
    obtain ⟨data, hdata, hf⟩ := mapParse_ok_of_roundtrip hrt
    have hrcols : ∀ rc ∈ (Value.arr cols0 :: rest).map rowCols,
        rc.length = cols0.length := by
      intro rc hrc
      rw [List.mem_map] at hrc
      obtain ⟨r, hr, hrc2⟩ := hrc
      obtain ⟨cols, hreq, hl⟩ := hshape' r hr
      subst hreq
      simp only [rowCols] at hrc2
      rw [← hrc2]
      exact hl
    have hflen : data.length =
        (Value.arr cols0 :: rest).length * cols0.length := by
      have h1 : (flattenRows (Value.arr cols0 :: rest)).length = data.length :=
        hf.length_eq
      have h2 : (flattenRows (Value.arr cols0 :: rest)).length =
          ((Value.arr cols0 :: rest).map rowCols).length * cols0.length := by
        simp only [flattenRows]
        exact flatten_length_of_uniform hrcols
      rw [← h1, h2, List.length_map]
    refine ⟨⟨(Value.arr cols0 :: rest).length, cols0.length, data, hflen⟩, ?_, ?_⟩
    · simp [Array2.parse_from_json, hcheck, hdata, Array2.from_shape_vec, hflen]
    · have hrec := reconstruct_rows tj cols0.length
        ((Value.arr cols0 :: rest).map rowCols) data hrcols hf
      rw [List.length_map] at hrec
      have hmap : (List.range (Value.arr cols0 :: rest).length).map (fun i =>
          Value.arr ((List.range cols0.length).filterMap (fun j =>
            (data[i * cols0.length + j]?).bind tj))) =
          ((Value.arr cols0 :: rest).map rowCols).map Value.arr := by
        rw [← hrec, List.map_map]
        rfl
      have hback : ((Value.arr cols0 :: rest).map rowCols).map Value.arr =
          Value.arr cols0 :: rest := by
        rw [List.map_map]
        have h : ∀ r ∈ Value.arr cols0 :: rest, (Value.arr ∘ rowCols) r = r := by
          intro r hr
          obtain ⟨cols, hreq, _⟩ := hshape' r hr
          subst hreq
          rfl
        rw [List.map_congr_left h, List.map_id']
      simp only [Array2.to_json]
      rw [hmap, hback]

/-- Witness for C3 on the source tests' rectangular 2×2 numeric value. -/
theorem claim_C3_witness :
    ∃ a, Array2.parse_from_json pNum (some (Value.arr
        [Value.arr [Value.num 1, Value.num 2],
         Value.arr [Value.num 3, Value.num 4]])) = Except.ok a ∧
      Array2.to_json tjNum a = some (Value.arr
        [Value.arr [Value.num 1, Value.num 2],
         Value.arr [Value.num 3, Value.num 4]]) := by
  apply claim_C3_array2_roundtrip pNum tjNum _ 2
  · intro r hr
    simp only [List.mem_cons, List.not_mem_nil, or_false] at hr
    rcases hr with rfl | rfl
    · exact ⟨[Value.num 1, Value.num 2], rfl, rfl⟩
    · exact ⟨[Value.num 3, Value.num 4], rfl, rfl⟩
  · intro e he
    simp [flattenRows, rowCols] at he
    rcases he with rfl | rfl | rfl | rfl
    · exact ⟨1, rfl, rfl⟩
    · exact ⟨2, rfl, rfl⟩
    · exact ⟨3, rfl, rfl⟩
    · exact ⟨4, rfl, rfl⟩
